import Mathlib

/-!
Shallow embedding of `ndarray-csv` (src/lib.rs): reading CSV record streams into
dense 2-D arrays and writing them back.

The external record codec (the `csv` crate) is out of scope: a record source is a
list of steps, each step either a decoded row (a `List A`) or a decode error of an
opaque type `ε` (modelling `csv::Error`). A record sink is a pair of `write`/`flush`
functions acting on an abstract sink state.
-/

set_option autoImplicit false

namespace NdarrayCsv

variable {A B : Type} {ε η σ : Type}

/-- A dense two-dimensional array in row-major order, modelling `ndarray::Array2`
with standard layout: `shape = (n_rows, n_cols)` and `data` lists the elements row
by row. -/
structure Array2 (A : Type) where
  shape : Nat × Nat
  data : List A
deriving Repr, DecidableEq

/-- Row-major cell access: the element at row `r`, column `c`. -/
def Array2.cell (arr : Array2 A) (r c : Nat) : Option A :=
  arr.data[r * arr.shape.2 + c]?

/-- The row at outer index `r`, as the writer's `array.outer_iter()` views it. -/
def Array2.row (arr : Array2 A) (r : Nat) : List A :=
  (arr.data.drop (r * arr.shape.2)).take arr.shape.2

/-- All rows in outer-index order `0 .. n_rows`, i.e. the sequence that
`array.outer_iter()` produces (src/lib.rs line 202). -/
def Array2.rowsOf (arr : Array2 A) : List (List A) :=
  (List.range arr.shape.1).map arr.row

/-- Models `ndarray`'s `Array1::into_shape(shape)` on a contiguous row-major buffer:
it succeeds exactly when the flat length equals `shape.1 * shape.2`, reinterpreting
the buffer without moving elements. -/
def into_shape (shape : Nat × Nat) (data : List A) : Option (Array2 A) :=
  if data.length = shape.1 * shape.2 then some ⟨shape, data⟩ else none

/-- The crate's `ReadError` (src/lib.rs lines 73-85): `Csv` wraps the decoder's own
error, `NRows` and `NColumns` report shape mismatches, each carrying both the
expected and the actual count. -/
inductive ReadError (ε : Type) where
  | Csv (e : ε)
  | NRows (expected actual : Nat)
  | NColumns (at_row_index expected actual : Nat)
deriving Repr, DecidableEq

/-- The value stream built by `rows.enumerate().flat_map(...)` in
`deserialize_array2` (src/lib.rs lines 117-128): a decode error contributes a single
`Csv` error, a decoded row of the expected width contributes its values in order,
and a row of any other width contributes a single `NColumns` error carrying that
row's index and actual width. -/
def rowsToValues (n_columns : Nat) :
    Nat → List (Except ε (List A)) → List (Except (ReadError ε) A)
  | _, [] => []
  | row_index, row :: rest =>
    (match row with
      | Except.error e => [Except.error (ReadError.Csv e)]
      | Except.ok row_vec =>
        if row_vec.length = n_columns then row_vec.map Except.ok
        else [Except.error (ReadError.NColumns row_index n_columns row_vec.length)])
    ++ rowsToValues n_columns (row_index + 1) rest

/-- Models `Iterator::collect::<Result<Array1<A>, _>>` (src/lib.rs line 129): the
first error short-circuits, otherwise every value is gathered in order. -/
def collectValues : List (Except η B) → Except η (List B)
  | [] => Except.ok []
  | Except.error e :: _ => Except.error e
  | Except.ok b :: rest => (collectValues rest).map (fun l => b :: l)

/-- The fixed-shape reader `deserialize_array2` (src/lib.rs lines 110-138): validate
each row against the fixed column count while streaming, collect the values, then
reshape; `into_shape` failing is reported as `NRows` with
`actual = array1_len / n_columns` (natural-number division, as for `usize`). -/
def deserialize_array2 (shape : Nat × Nat) (rows : List (Except ε (List A))) :
    Except (ReadError ε) (Array2 A) :=
  match collectValues (rowsToValues shape.2 0 rows) with
  | Except.error e => Except.error e
  | Except.ok array1 =>
    match into_shape shape array1 with
    | some arr => Except.ok arr
    | none => Except.error (ReadError.NRows shape.1 (array1.length / shape.2))

/-- How many records the lazy `flat_map`/`collect` pipeline of `deserialize_array2`
pulls from the source: every record up to and including the first one whose
expansion yields an error, or the whole source when no error occurs. -/
def consumedRows (n_columns : Nat) : List (Except ε (List A)) → Nat
  | [] => 0
  | row :: rest =>
    match row with
    | Except.error _ => 1
    | Except.ok row_vec =>
      if row_vec.length = n_columns then 1 + consumedRows n_columns rest
      else 1

/-- The stateful stream of `deserialize_array2_dynamic` (src/lib.rs lines 145-163)
fused with its short-circuiting `collect` (line 164): the closure's captured
mutable `row_count` and `last_columns` are threaded explicitly, and the values of
accepted rows are accumulated. The Rust closure increments `row_count` before
matching on the record, but on every error path the count is discarded together
with the stream, so only the success path's count is observable; on success the
result is `(row_count, last_columns.unwrap_or(0), values)` as used on line 168. -/
def dynGo : List (Except ε (List A)) → Nat → Nat → Option Nat → List A →
    Except (ReadError ε) (Nat × Nat × List A)
  | [], _, row_count, last_columns, acc =>
    Except.ok (row_count, last_columns.getD 0, acc)
  | row :: rest, row_index, row_count, last_columns, acc =>
    match row with
    | Except.error e => Except.error (ReadError.Csv e)
    | Except.ok row_vec =>
      match last_columns with
      | some lc =>
        if lc ≠ row_vec.length then
          Except.error (ReadError.NColumns row_index lc row_vec.length)
        else
          dynGo rest (row_index + 1) (row_count + 1) (some row_vec.length)
            (acc ++ row_vec)
      | none =>
        dynGo rest (row_index + 1) (row_count + 1) (some row_vec.length)
          (acc ++ row_vec)

/-- The dynamic-shape reader `deserialize_array2_dynamic` (src/lib.rs lines
140-171). The final `.unwrap()` on `into_shape((row_count, last_columns))` is
modelled by returning the `Option` itself: a `some` is the value the unwrap
yields, a `none` is the panic. -/
def deserialize_array2_dynamic (rows : List (Except ε (List A))) :
    Except (ReadError ε) (Option (Array2 A)) :=
  match dynGo rows 0 0 none [] with
  | Except.error e => Except.error e
  | Except.ok (row_count, cols, array1) =>
    Except.ok (into_shape (row_count, cols) array1)

/-- Whether the dynamic reader avoided the panicking `unwrap`: `false` exactly when
the computation reached the reshape and the reshape failed. -/
def notOkNone : Except η (Option B) → Bool
  | Except.ok none => false
  | _ => true

/-- The writer `serialize_array2` (src/lib.rs lines 180-208): pass each row of the
outer iteration to the sink in order, stopping at the first sink error
(`self.serialize(row)?`), then flush once (`self.flush()?`). The sink is the pair
`write`/`flush` acting on its own state `σ`, with error type `η`. -/
def serialize_array2 (write : σ → List A → Except η σ) (flush : σ → Except η σ)
    (array : Array2 A) (s : σ) : Except η σ :=
  match (Array2.rowsOf array).foldlM write s with
  | Except.error e => Except.error e
  | Except.ok s1 => flush s1

/-- Observable record-sink state: the records received so far, in order, and how
many flushes have happened. -/
structure SinkLog (A : Type) where
  records : List (List A)
  flushes : Nat
deriving Repr, DecidableEq

/-- A scripted sink write: fails exactly on the record indices selected by
`failAt`, otherwise appends the record to the log. -/
def scriptWrite (failAt : Nat → Bool) (s : SinkLog A) (row : List A) :
    Except Unit (SinkLog A) :=
  if failAt s.records.length then Except.error ()
  else Except.ok ⟨s.records ++ [row], s.flushes⟩

/-- A scripted sink flush: fails iff `flushFail`, otherwise counts the flush. -/
def scriptFlush (flushFail : Bool) (s : SinkLog A) : Except Unit (SinkLog A) :=
  if flushFail then Except.error () else Except.ok ⟨s.records, s.flushes + 1⟩

/-- The records a successful write emits: run `serialize_array2` against the
scripted sink that never fails, starting from the empty log, and read off the
records received. -/
def writtenRecords (array : Array2 A) : List (List A) :=
  match serialize_array2 (scriptWrite (fun _ => false)) (scriptFlush false)
      array ⟨[], 0⟩ with
  | Except.ok s => s.records
  | Except.error _ => []

/-! Helper lemmas about the collect pipeline. -/

theorem collectValues_map_ok (l : List B) :
    collectValues (l.map Except.ok) = (Except.ok l : Except η (List B)) := by
  induction l with
  | nil => rfl
  | cons b rest ih => simp [collectValues, ih, Except.map]

theorem collectValues_append (l₁ l₂ : List (Except η B)) :
    collectValues (l₁ ++ l₂) =
      (collectValues l₁).bind
        (fun v₁ => (collectValues l₂).map (fun v₂ => v₁ ++ v₂)) := by
  induction l₁ with
  | nil =>
    simp only [List.nil_append, collectValues, Except.bind]
    cases collectValues l₂ with
    | error e => rfl
    | ok v => simp [Except.map]
  | cons x rest ih =>
    cases x with
    | error e => rfl
    | ok b =>
      simp only [List.cons_append, collectValues, List.append_eq, ih]
      cases collectValues rest with
      | error e => rfl
      | ok v₁ =>
        cases collectValues l₂ with
        | error e => rfl
        | ok v₂ => simp [Except.map, Except.bind]

/-- On a source whose rows all decode to the expected width, the value stream has
no errors and collecting it yields exactly the concatenation of the rows. -/
theorem collect_rowsToValues_ok (C : Nat) (vals : List (List A))
    (h : ∀ v ∈ vals, v.length = C) :
    ∀ i : Nat,
      collectValues (rowsToValues (ε := ε) C i (vals.map Except.ok)) =
        Except.ok vals.flatten := by
  induction vals with
  | nil => intro i; rfl
  | cons v rest ih =>
    intro i
    have hv : v.length = C := h v (List.mem_cons_self v rest)
    have hrest : ∀ w ∈ rest, w.length = C := fun w hw => h w (List.mem_cons_of_mem v hw)
    simp only [List.map_cons, rowsToValues, hv, eq_self_iff_true, if_true]
    rw [collectValues_append, collectValues_map_ok, ih hrest (i + 1)]
    simp [Except.bind, Except.map, List.flatten]

theorem flatten_length_const (C : Nat) (vals : List (List A))
    (h : ∀ v ∈ vals, v.length = C) :
    vals.flatten.length = vals.length * C := by
  induction vals with
  | nil => simp
  | cons v rest ih =>
    have hv : v.length = C := h v (List.mem_cons_self v rest)
    have hrest : ∀ w ∈ rest, w.length = C := fun w hw => h w (List.mem_cons_of_mem v hw)
    simp [List.flatten, ih hrest, hv, Nat.succ_mul, Nat.add_comm]

/-- Row-major indexing into the concatenation of fixed-width rows recovers the
element at the corresponding row and column. -/
theorem flatten_get_const (C : Nat) (vals : List (List A))
    (h : ∀ v ∈ vals, v.length = C) :
    ∀ r c : Nat, r < vals.length → c < C →
      vals.flatten[r * C + c]? = (vals.getD r [])[c]? := by
  induction vals with
  | nil => intro r c hr _; exact absurd hr (Nat.not_lt_zero r)
  | cons v rest ih =>
    intro r c hr hc
    have hv : v.length = C := h v (List.mem_cons_self v rest)
    have hrest : ∀ w ∈ rest, w.length = C := fun w hw => h w (List.mem_cons_of_mem v hw)
    cases r with
    | zero =>
      have hcv : c < v.length := hv ▸ hc
      rw [show (v :: rest).flatten = v ++ rest.flatten from rfl, Nat.zero_mul,
        Nat.zero_add, List.getElem?_append_left hcv]
      rfl
    | succ r =>
      have hrlen : v.length ≤ (r + 1) * C + c := by
        rw [hv, Nat.succ_mul]
        omega
      rw [show (v :: rest).flatten = v ++ rest.flatten from rfl,
        List.getElem?_append_right hrlen]
      have hidx : (r + 1) * C + c - v.length = r * C + c := by
        rw [hv, Nat.succ_mul]; omega
      rw [hidx]
      exact ih hrest r c (Nat.lt_of_succ_lt_succ hr) hc

theorem consumedRows_all_ok (C : Nat) (vals : List (List A))
    (h : ∀ v ∈ vals, v.length = C) :
    consumedRows (ε := ε) C (vals.map Except.ok) = vals.length := by
  induction vals with
  | nil => rfl
  | cons v rest ih =>
    have hv : v.length = C := h v (List.mem_cons_self v rest)
    have hrest : ∀ w ∈ rest, w.length = C := fun w hw => h w (List.mem_cons_of_mem v hw)
    simp [consumedRows, hv, ih hrest, Nat.add_comm]

/-- On a well-formed source whose row count does not match the target, the
fixed-shape reader reaches the reshape and reports `NRows` with the true row
count (the whole source having been collected first). -/
theorem deserialize_array2_nrows (R C : Nat) (vals : List (List A))
    (h : ∀ v ∈ vals, v.length = C) (hC : 0 < C) (hR : vals.length ≠ R) :
    deserialize_array2 (ε := ε) (R, C) (vals.map Except.ok) =
      Except.error (ReadError.NRows R vals.length) := by
  have hcol := collect_rowsToValues_ok (ε := ε) C vals h 0
  have hlen := flatten_length_const C vals h
  simp only [deserialize_array2, hcol, into_shape, hlen]
  have hne : vals.length * C ≠ R * C :=
    fun heq => hR (Nat.eq_of_mul_eq_mul_right hC heq)
  rw [if_neg hne]
  simp [hlen, Nat.mul_div_cancel _ hC]

/-- The first row whose width differs from the expected count turns the value
stream into an error at that row's index, carrying the actual width. -/
theorem collect_rowsToValues_badcol (C : Nat) (p : List (List A))
    (hp : ∀ v ∈ p, v.length = C) (bad : List A) (hbad : bad.length ≠ C)
    (rest : List (Except ε (List A))) :
    ∀ i : Nat,
      collectValues (rowsToValues C i (p.map Except.ok ++ Except.ok bad :: rest)) =
        Except.error (ReadError.NColumns (i + p.length) C bad.length) := by
  induction p with
  | nil =>
    intro i
    simp only [List.map_nil, List.nil_append, rowsToValues, if_neg hbad]
    rfl
  | cons v prest ih =>
    intro i
    have hv : v.length = C := hp v (List.mem_cons_self v prest)
    have hrest : ∀ w ∈ prest, w.length = C := fun w hw => hp w (List.mem_cons_of_mem v hw)
    simp only [List.map_cons, List.cons_append, rowsToValues, hv, eq_self_iff_true,
      if_true, List.append_eq]
    rw [collectValues_append, collectValues_map_ok, ih hrest (i + 1)]
    simp only [Except.bind, Except.map, List.length_cons]
    have harith : i + 1 + prest.length = i + (prest.length + 1) := by omega
    rw [harith]

theorem consumedRows_badcol (C : Nat) (p : List (List A))
    (hp : ∀ v ∈ p, v.length = C) (bad : List A) (hbad : bad.length ≠ C)
    (rest : List (Except ε (List A))) :
    consumedRows C (p.map Except.ok ++ Except.ok bad :: rest) = p.length + 1 := by
  induction p with
  | nil => simp [consumedRows, hbad]
  | cons v prest ih =>
    have hv : v.length = C := hp v (List.mem_cons_self v prest)
    have hrest : ∀ w ∈ prest, w.length = C := fun w hw => hp w (List.mem_cons_of_mem v hw)
    simp [consumedRows, hv, ih hrest]
    omega

/-! Helper lemmas about the dynamic-shape reader's stream. -/

/-- Invariant of the dynamic stream: whenever it finishes successfully, the number
of values gathered equals the row count times the final column count. -/
theorem dynGo_ok_length :
    ∀ (rows : List (Except ε (List A))) (i rc : Nat) (lc : Option Nat) (acc : List A),
      (match lc with
        | some c => acc.length = rc * c
        | none => rc = 0 ∧ acc = []) →
      ∀ (rc' c' : Nat) (a' : List A),
        dynGo rows i rc lc acc = Except.ok (rc', c', a') →
        a'.length = rc' * c' := by
  intro rows
  induction rows with
  | nil =>
    intro i rc lc acc hinv rc' c' a' heq
    simp only [dynGo] at heq
    obtain ⟨h1, h2, h3⟩ : rc = rc' ∧ lc.getD 0 = c' ∧ acc = a' := by
      have := Except.ok.inj heq
      exact ⟨congrArg Prod.fst this, congrArg Prod.fst (congrArg Prod.snd this),
        congrArg Prod.snd (congrArg Prod.snd this)⟩
    subst h1; subst h3
    cases lc with
    | some c =>
      simp only [Option.getD_some] at h2
      subst h2
      exact hinv
    | none =>
      simp only [Option.getD_none] at h2
      subst h2
      obtain ⟨hrc, hacc⟩ := hinv
      subst hrc; subst hacc
      rfl
  | cons row rest ih =>
    intro i rc lc acc hinv rc' c' a' heq
    cases row with
    | error e => simp [dynGo] at heq
    | ok row_vec =>
      cases lc with
      | some c =>
        simp only [dynGo] at heq
        by_cases hc : c ≠ row_vec.length
        · rw [if_pos hc] at heq
          exact absurd heq (by simp)
        · rw [if_neg hc] at heq
          push_neg at hc
          refine ih (i + 1) (rc + 1) (some row_vec.length) (acc ++ row_vec) ?_ rc' c' a' heq
          simp only at hinv
          show (acc ++ row_vec).length = (rc + 1) * row_vec.length
          rw [List.length_append, hinv, hc, Nat.succ_mul]
      | none =>
        simp only [dynGo] at heq
        obtain ⟨hrc, hacc⟩ := hinv
        subst hrc; subst hacc
        refine ih (i + 1) 1 (some row_vec.length) row_vec ?_ rc' c' a' heq
        simp

/-- On a source of uniformly wide decoded rows, the dynamic stream accepts every
row, counts them, and keeps the frozen column count. -/
theorem dynGo_all_ok (C : Nat) (vals : List (List A))
    (h : ∀ v ∈ vals, v.length = C) :
    ∀ (i rc : Nat) (acc : List A),
      dynGo (ε := ε) (vals.map Except.ok) i rc (some C) acc =
        Except.ok (rc + vals.length, C, acc ++ vals.flatten) := by
  induction vals with
  | nil => intro i rc acc; simp [dynGo]
  | cons v rest ih =>
    intro i rc acc
    have hv : v.length = C := h v (List.mem_cons_self v rest)
    have hrest : ∀ w ∈ rest, w.length = C := fun w hw => h w (List.mem_cons_of_mem v hw)
    simp only [List.map_cons, dynGo, hv, ne_eq, eq_self_iff_true, not_true_eq_false,
      if_false]
    rw [ih hrest (i + 1) (rc + 1) (acc ++ v)]
    simp only [List.flatten_cons, List.append_assoc]
    have harith : rc + 1 + rest.length = rc + (rest.length + 1) := by omega
    rw [harith]
    rfl

/-- The first decoded row differing from the frozen column count makes the
dynamic stream fail with `NColumns` at that row's index. -/
theorem dynGo_badcol (C : Nat) (p : List (List A)) (hp : ∀ v ∈ p, v.length = C)
    (bad : List A) (hbad : bad.length ≠ C) (rest : List (Except ε (List A))) :
    ∀ (i rc : Nat) (acc : List A),
      dynGo (p.map Except.ok ++ Except.ok bad :: rest) i rc (some C) acc =
        Except.error (ReadError.NColumns (i + p.length) C bad.length) := by
  induction p with
  | nil =>
    intro i rc acc
    have hCb : C ≠ bad.length := fun hc => hbad hc.symm
    simp [dynGo, hCb]
  | cons v prest ih =>
    intro i rc acc
    have hv : v.length = C := hp v (List.mem_cons_self v prest)
    have hrest : ∀ w ∈ prest, w.length = C := fun w hw => hp w (List.mem_cons_of_mem v hw)
    simp only [List.map_cons, List.cons_append, dynGo, hv, ne_eq, eq_self_iff_true,
      not_true_eq_false, if_false, List.append_eq]
    rw [ih hrest (i + 1) (rc + 1) (acc ++ v)]
    have harith : i + 1 + prest.length = i + (prest.length + 1) := by omega
    rw [harith]
    simp

/-! Helper lemmas about the writer against the scripted sink. -/

theorem except_ok_bind {α β γ : Type} (a : α) (f : α → Except γ β) :
    (Except.ok a : Except γ α) >>= f = f a := rfl

theorem except_error_bind {α β γ : Type} (e : γ) (f : α → Except γ β) :
    (Except.error e : Except γ α) >>= f = Except.error e := rfl

theorem foldlM_scriptWrite_ok (failAt : Nat → Bool) :
    ∀ (l : List (List A)) (s : SinkLog A),
      (∀ j, j < l.length → failAt (s.records.length + j) = false) →
      l.foldlM (scriptWrite failAt) s = Except.ok ⟨s.records ++ l, s.flushes⟩ := by
  intro l
  induction l with
  | nil =>
    intro s _
    simp only [List.foldlM_nil, List.append_nil]
    rfl
  | cons a rest ih =>
    intro s h
    have h0 : failAt s.records.length = false := by
      have := h 0 (Nat.succ_pos rest.length)
      simpa using this
    simp only [List.foldlM_cons, scriptWrite, h0, if_neg Bool.false_ne_true,
      except_ok_bind]
    rw [ih ⟨s.records ++ [a], s.flushes⟩ ?_]
    · simp
    · intro j hj
      have := h (j + 1) (Nat.succ_lt_succ hj)
      simpa [Nat.add_assoc, Nat.add_comm 1 j] using this

theorem foldlM_scriptWrite_err (failAt : Nat → Bool) :
    ∀ (l : List (List A)) (s : SinkLog A) (i : Nat), i < l.length →
      (∀ j, j < i → failAt (s.records.length + j) = false) →
      failAt (s.records.length + i) = true →
      l.foldlM (scriptWrite failAt) s = Except.error () := by
  intro l
  induction l with
  | nil => intro s i hi; exact absurd hi (Nat.not_lt_zero i)
  | cons a rest ih =>
    intro s i hi hpre hfail
    cases i with
    | zero =>
      simp only [Nat.add_zero] at hfail
      simp [List.foldlM_cons, scriptWrite, hfail, except_error_bind]
    | succ i =>
      have h0 : failAt s.records.length = false := by
        have := hpre 0 (Nat.succ_pos i)
        simpa using this
      simp only [List.foldlM_cons, scriptWrite, h0, if_neg Bool.false_ne_true,
        except_ok_bind]
      refine ih ⟨s.records ++ [a], s.flushes⟩ i (Nat.lt_of_succ_lt_succ hi) ?_ ?_
      · intro j hj
        have := hpre (j + 1) (Nat.succ_lt_succ hj)
        simpa [Nat.add_assoc, Nat.add_comm 1 j] using this
      · simpa [Nat.add_assoc, Nat.add_comm 1 i] using hfail

/-! Helper lemmas about the row decomposition of a well-formed array. -/

theorem flatten_chunks (C : Nat) :
    ∀ (n : Nat) (data : List A), data.length = n * C →
      ((List.range n).map (fun r => (data.drop (r * C)).take C)).flatten = data := by
  intro n
  induction n with
  | zero =>
    intro data h
    rw [Nat.zero_mul, List.length_eq_zero] at h
    subst h
    rfl
  | succ n ih =>
    intro data h
    have hmap : (List.range n).map
          ((fun r => (data.drop (r * C)).take C) ∘ Nat.succ)
        = (List.range n).map (fun r => ((data.drop C).drop (r * C)).take C) := by
      apply List.map_congr_left
      intro r _
      simp only [Function.comp_apply, List.drop_drop]
      rw [Nat.succ_mul, Nat.add_comm (r * C) C]
    simp only [List.range_succ_eq_map, List.map_cons, List.map_map, Nat.zero_mul,
      List.drop_zero, List.flatten_cons]
    rw [hmap, ih (data.drop C) (by rw [List.length_drop, h, Nat.succ_mul]; omega)]
    exact List.take_append_drop C data

theorem rowsOf_length (arr : Array2 A) :
    (Array2.rowsOf arr).length = arr.shape.1 := by
  simp [Array2.rowsOf]

theorem rowsOf_width (arr : Array2 A)
    (h : arr.data.length = arr.shape.1 * arr.shape.2) :
    ∀ v ∈ Array2.rowsOf arr, v.length = arr.shape.2 := by
  intro v hv
  rw [Array2.rowsOf, List.mem_map] at hv
  obtain ⟨r, hr, rfl⟩ := hv
  rw [List.mem_range] at hr
  have h1 : (r + 1) * arr.shape.2 ≤ arr.shape.1 * arr.shape.2 :=
    Nat.mul_le_mul_right _ hr
  rw [Nat.succ_mul] at h1
  rw [Array2.row, List.length_take, List.length_drop, h]
  omega

theorem rowsOf_flatten (arr : Array2 A)
    (h : arr.data.length = arr.shape.1 * arr.shape.2) :
    (Array2.rowsOf arr).flatten = arr.data :=
  flatten_chunks arr.shape.2 arr.shape.1 arr.data h

/-- Against the never-failing scripted sink, the writer's observable output is
exactly the array's rows in outer-index order. -/
theorem writtenRecords_eq (arr : Array2 A) :
    writtenRecords arr = Array2.rowsOf arr := by
  rw [writtenRecords, serialize_array2,
    foldlM_scriptWrite_ok (fun _ => false) (Array2.rowsOf arr) ⟨[], 0⟩
      (fun _ _ => rfl)]
  rfl

/-! Claim theorems. -/

/-- C1: for every source of exactly R well-formed rows of exactly C values each,
the fixed-shape read with shape (R, C) succeeds and returns the R-by-C row-major
array in which cell (r, c) holds the c-th value of the r-th source row. -/
theorem fixed_read_exact (R C : Nat) (vals : List (List A))
    (hlen : vals.length = R) (hw : ∀ v ∈ vals, v.length = C) :
    deserialize_array2 (ε := ε) (R, C) (vals.map Except.ok) =
        Except.ok ⟨(R, C), vals.flatten⟩
      ∧ ∀ r c : Nat, r < R → c < C →
        Array2.cell ⟨(R, C), vals.flatten⟩ r c = (vals.getD r [])[c]? := by
  constructor
  · have hcol := collect_rowsToValues_ok (ε := ε) C vals hw 0
    have hflat := flatten_length_const C vals hw
    simp only [deserialize_array2, hcol, into_shape]
    rw [if_pos (by rw [hflat, hlen])]
  · intro r c hr hc
    rw [Array2.cell]
    exact flatten_get_const C vals hw r c (hlen ▸ hr) hc

/-- C1 witness: the spec's concrete scenario, rows [1,2,3] and [4,5,6] with shape
(2, 3), yields the array [[1,2,3],[4,5,6]]. -/
theorem fixed_read_exact_witness :
    deserialize_array2 (ε := Unit) (2, 3)
        (([[1, 2, 3], [4, 5, 6]] : List (List Nat)).map Except.ok) =
      Except.ok ⟨(2, 3), [1, 2, 3, 4, 5, 6]⟩ :=
  (fixed_read_exact 2 3 [[1, 2, 3], [4, 5, 6]] rfl (by decide)).1

/-- C2: writing any well-formed array and then reading the emitted records back
with the array's own shape returns exactly the array: the write-then-read round
trip is the identity for shape-matching data. -/
theorem write_read_roundtrip (arr : Array2 A)
    (h : arr.data.length = arr.shape.1 * arr.shape.2) :
    deserialize_array2 (ε := ε) arr.shape ((writtenRecords arr).map Except.ok) =
      Except.ok arr := by
  rw [writtenRecords_eq]
  have hw := rowsOf_width arr h
  have hcol := collect_rowsToValues_ok (ε := ε) arr.shape.2 (Array2.rowsOf arr) hw 0
  rw [rowsOf_flatten arr h] at hcol
  simp only [deserialize_array2, hcol, into_shape]
  rw [if_pos h]

/-- C2 witness: the round trip at the concrete array [[1,2,3],[4,5,6]]. -/
theorem write_read_roundtrip_witness :
    deserialize_array2 (ε := Unit)
        (⟨(2, 3), [1, 2, 3, 4, 5, 6]⟩ : Array2 Nat).shape
        ((writtenRecords (⟨(2, 3), [1, 2, 3, 4, 5, 6]⟩ : Array2 Nat)).map Except.ok) =
      Except.ok ⟨(2, 3), [1, 2, 3, 4, 5, 6]⟩ :=
  write_read_roundtrip (⟨(2, 3), [1, 2, 3, 4, 5, 6]⟩ : Array2 Nat) rfl

/-- C3 counterexample: with shape (1, 3) and the two-row source [1,2,3],[4,5,6],
the fixed-shape read returns the error NRows with expected 1 and actual 2 — the
actual row count, which the claim says is not reported, is in the error — and the
consumption measure is 2, i.e. the row past the first was drained although the
bound was 1, contrary to the claim's bounded-read guarantee. -/
theorem too_many_rows_cex :
    deserialize_array2 (ε := Unit) (1, 3)
        (([[1, 2, 3], [4, 5, 6]] : List (List Nat)).map Except.ok) =
        Except.error (ReadError.NRows 1 2)
      ∧ consumedRows (ε := Unit) 3
        (([[1, 2, 3], [4, 5, 6]] : List (List Nat)).map Except.ok) = 2 := by
  constructor <;> rfl

/-- C3 amended: for every source of N > R well-formed rows of width C (C at least
1), the fixed-shape read with shape (R, C) fails with NRows { expected: R,
actual: N } — the true row count is reported — and only after consuming all N
rows of the source. -/
theorem too_many_rows_amended (R C : Nat) (vals : List (List A))
    (hw : ∀ v ∈ vals, v.length = C) (hC : 0 < C) (hR : R < vals.length) :
    deserialize_array2 (ε := ε) (R, C) (vals.map Except.ok) =
        Except.error (ReadError.NRows R vals.length)
      ∧ consumedRows (ε := ε) C (vals.map Except.ok) = vals.length :=
  ⟨deserialize_array2_nrows R C vals hw hC (Nat.ne_of_lt hR).symm,
   consumedRows_all_ok C vals hw⟩

/-- C3 witness: three rows of width 2 against shape (1, 2). -/
theorem too_many_rows_amended_witness :
    deserialize_array2 (ε := Unit) (1, 2)
        (([[7, 7], [8, 8], [9, 9]] : List (List Nat)).map Except.ok) =
        Except.error (ReadError.NRows 1 3)
      ∧ consumedRows (ε := Unit) 2
        (([[7, 7], [8, 8], [9, 9]] : List (List Nat)).map Except.ok) = 3 :=
  too_many_rows_amended 1 2 [[7, 7], [8, 8], [9, 9]] (by decide) (by decide)
    (by decide)

/-- C4 counterexample: with shape (2, 2) and first row [1,2,3], the error is
NColumns with at_row_index 0, expected 2 and actual 3: the actual observed count,
which the claim says is omitted, is present in the error, and it can only be
known because the whole 3-value row was decoded rather than stopping at the
third value. -/
theorem too_many_columns_cex :
    deserialize_array2 (ε := Unit) (2, 2)
        (([[1, 2, 3], [4, 5, 6]] : List (List Nat)).map Except.ok) =
      Except.error (ReadError.NColumns 0 2 3) := rfl

/-- C4 amended: in fixed-shape mode with expected width C, when the first
ill-shaped row (at index r, after r rows of width C) decodes to k different from C
values, the read fails with NColumns { at_row_index: r, expected: C, actual: k }:
the offending row is decoded in full so its actual width k is reported, and no
record after it is pulled from the source. -/
theorem too_many_columns_amended (R C : Nat) (p : List (List A))
    (hp : ∀ v ∈ p, v.length = C) (bad : List A) (hbad : bad.length ≠ C)
    (rest : List (Except ε (List A))) :
    deserialize_array2 (R, C) (p.map Except.ok ++ Except.ok bad :: rest) =
        Except.error (ReadError.NColumns p.length C bad.length)
      ∧ consumedRows C (p.map Except.ok ++ Except.ok bad :: rest) =
        p.length + 1 := by
  constructor
  · have hcol := collect_rowsToValues_badcol C p hp bad hbad rest 0
    simp only [deserialize_array2, hcol, Nat.zero_add]
  · exact consumedRows_badcol C p hp bad hbad rest

/-- C4 witness: shape (2, 2) against rows [1,2,3],[4,5,6]: the failure is at row
index 0 with expected 2, actual 3, and only one record is consumed. -/
theorem too_many_columns_amended_witness :
    deserialize_array2 (ε := Unit) (2, 2)
        (([] : List (List Nat)).map Except.ok ++
          Except.ok [1, 2, 3] :: [Except.ok [4, 5, 6]]) =
        Except.error (ReadError.NColumns 0 2 3)
      ∧ consumedRows (ε := Unit) 2
        (([] : List (List Nat)).map Except.ok ++
          Except.ok [1, 2, 3] :: [Except.ok [4, 5, 6]]) = 1 :=
  too_many_columns_amended 2 2 [] (by decide) [1, 2, 3] (by decide)
    [Except.ok [4, 5, 6]]

/-- C5 counterexample: with shape (2, 0) and a source of exactly one well-formed
row of width 0 (one row fewer than expected), the read does not fail with a
row-count error at all: it succeeds with the 2-by-0 array, because an empty
collection reshapes to (2, 0). -/
theorem too_few_rows_cex :
    deserialize_array2 (ε := Unit) (2, 0) [Except.ok ([] : List Nat)] =
        Except.ok ⟨(2, 0), []⟩
      ∧ deserialize_array2 (ε := Unit) (2, 0) [Except.ok ([] : List Nat)] ≠
        Except.error (ReadError.NRows 2 1) := by
  constructor
  · rfl
  · intro hcontra
    exact Except.noConfusion hcontra

/-- C5 amended: provided C is at least 1, a source of exactly k < R well-formed
rows of width C makes the fixed-shape read with shape (R, C) fail with
NRows { expected: R, actual: k } (the code's NRows error is the claim's
TooFewRows, with the same fields); for C = 0 the read instead succeeds with an
R-by-0 array. -/
theorem too_few_rows_amended (R C : Nat) (vals : List (List A))
    (hw : ∀ v ∈ vals, v.length = C) (hC : 0 < C) (hk : vals.length < R) :
    deserialize_array2 (ε := ε) (R, C) (vals.map Except.ok) =
      Except.error (ReadError.NRows R vals.length) :=
  deserialize_array2_nrows R C vals hw hC (Nat.ne_of_lt hk)

/-- C5 witness: the spec's concrete scenario, rows [1,2,3],[4,5,6] with shape
(3, 3), fails with expected 3, actual 2. -/
theorem too_few_rows_amended_witness :
    deserialize_array2 (ε := Unit) (3, 3)
        (([[1, 2, 3], [4, 5, 6]] : List (List Nat)).map Except.ok) =
      Except.error (ReadError.NRows 3 2) :=
  too_few_rows_amended 3 3 [[1, 2, 3], [4, 5, 6]] (by decide) (by decide) (by decide)

/-- C6: a source of N well-formed rows, all of one width C, makes the dynamic read
succeed with the dense N-by-C array, the column count frozen from the first row;
the empty source yields the 0-by-0 array. -/
theorem dynamic_read_ok (C : Nat) (vals : List (List A))
    (hw : ∀ v ∈ vals, v.length = C) :
    deserialize_array2_dynamic (ε := ε) (vals.map Except.ok) =
      Except.ok (some ⟨(vals.length, if vals.isEmpty then 0 else C),
        vals.flatten⟩) := by
  cases vals with
  | nil => rfl
  | cons v rest =>
    have hv : v.length = C := hw v (List.mem_cons_self v rest)
    have hrest : ∀ w ∈ rest, w.length = C := fun w hwm => hw w (List.mem_cons_of_mem v hwm)
    have hgo : dynGo (ε := ε) ((v :: rest).map Except.ok) 0 0 none []
        = Except.ok (1 + rest.length, C, v ++ rest.flatten) := by
      calc dynGo (ε := ε) ((v :: rest).map Except.ok) 0 0 none []
          = dynGo (ε := ε) (rest.map Except.ok) 1 1 (some v.length) v := rfl
        _ = dynGo (ε := ε) (rest.map Except.ok) 1 1 (some C) v := by rw [hv]
        _ = Except.ok (1 + rest.length, C, v ++ rest.flatten) :=
            dynGo_all_ok C rest hrest 1 1 v
    rw [deserialize_array2_dynamic, hgo]
    have hflat := flatten_length_const C (v :: rest) hw
    show Except.ok (into_shape (1 + rest.length, C) (v ++ rest.flatten)) = _
    rw [into_shape,
      if_pos (show (v ++ rest.flatten).length = (1 + rest.length, C).1 * (1 + rest.length, C).2 by
        rw [show v ++ rest.flatten = (v :: rest).flatten from rfl, hflat,
          List.length_cons, Nat.add_comm 1 rest.length]),
      Nat.add_comm 1 rest.length]
    rfl

/-- C6 witness: rows [1,2,3],[4,5,6] give the dense 2-by-3 array. -/
theorem dynamic_read_ok_witness :
    deserialize_array2_dynamic (ε := Unit)
        (([[1, 2, 3], [4, 5, 6]] : List (List Nat)).map Except.ok) =
      Except.ok (some ⟨(2, 3), [1, 2, 3, 4, 5, 6]⟩) :=
  dynamic_read_ok 3 [[1, 2, 3], [4, 5, 6]] (by decide)

/-- C7: in dynamic mode, when the first row has width C and the first later row
with a different width sits at index i with width k, the read fails with
NColumns { at_row_index: i, expected: C, actual: k }, reporting the actual
mismatched count in both directions. -/
theorem dynamic_read_ncolumns (C : Nat) (v0 : List A) (hv0 : v0.length = C)
    (p : List (List A)) (hp : ∀ v ∈ p, v.length = C)
    (bad : List A) (hbad : bad.length ≠ C) (rest : List (Except ε (List A))) :
    deserialize_array2_dynamic
        ((v0 :: p).map Except.ok ++ Except.ok bad :: rest) =
      Except.error (ReadError.NColumns (p.length + 1) C bad.length) := by
  have hgo : dynGo ((v0 :: p).map Except.ok ++ Except.ok bad :: rest) 0 0 none []
      = Except.error (ReadError.NColumns (1 + p.length) C bad.length) := by
    calc dynGo ((v0 :: p).map Except.ok ++ Except.ok bad :: rest) 0 0 none []
        = dynGo (p.map Except.ok ++ Except.ok bad :: rest) 1 1 (some v0.length) v0 :=
          rfl
      _ = dynGo (p.map Except.ok ++ Except.ok bad :: rest) 1 1 (some C) v0 := by
          rw [hv0]
      _ = Except.error (ReadError.NColumns (1 + p.length) C bad.length) :=
          dynGo_badcol C p hp bad hbad rest 1 1 v0
  rw [deserialize_array2_dynamic, hgo, Nat.add_comm 1 p.length]

/-- C7 witness: the spec's concrete scenario, rows [1,2,3],[4,5]: the failure is
NColumns with at_row_index 1, expected 3, actual 2. -/
theorem dynamic_read_ncolumns_witness :
    deserialize_array2_dynamic (ε := Unit)
        (([1, 2, 3] :: ([] : List (List Nat))).map Except.ok ++
          Except.ok [4, 5] :: []) =
      Except.error (ReadError.NColumns 1 3 2) :=
  dynamic_read_ncolumns 3 [1, 2, 3] rfl [] (by decide) [4, 5] (by decide) []

/-- C8: the writer hands the array's rows to the sink as records in outer-index
order with exactly one flush after all of them (the never-failing sink's log is
exactly the row list and one flush); a sink failure at the first failing row
index i < n_rows, with any flush behavior, or a failure at the flush itself,
makes the whole operation return the sink's error. -/
theorem serialize_array2_spec (arr : Array2 A) (failAt : Nat → Bool) :
    (serialize_array2 (scriptWrite (fun _ => false)) (scriptFlush false) arr
        ⟨[], 0⟩ = Except.ok ⟨Array2.rowsOf arr, 1⟩)
    ∧ (∀ i : Nat, i < arr.shape.1 → (∀ j : Nat, j < i → failAt j = false) →
        failAt i = true → ∀ b : Bool,
          serialize_array2 (scriptWrite failAt) (scriptFlush b) arr ⟨[], 0⟩ =
            Except.error ())
    ∧ (serialize_array2 (scriptWrite (fun _ => false)) (scriptFlush true) arr
        ⟨[], 0⟩ = Except.error ()) := by
  refine ⟨?_, ?_, ?_⟩
  · rw [serialize_array2,
      foldlM_scriptWrite_ok (fun _ => false) (Array2.rowsOf arr) ⟨[], 0⟩
        (fun _ _ => rfl)]
    rfl
  · intro i hi hpre hfail b
    rw [serialize_array2,
      foldlM_scriptWrite_err failAt (Array2.rowsOf arr) ⟨[], 0⟩ i
        (by rw [rowsOf_length]; exact hi)
        (fun j hj => by simpa using hpre j hj)
        (by simpa using hfail)]
  · rw [serialize_array2,
      foldlM_scriptWrite_ok (fun _ => false) (Array2.rowsOf arr) ⟨[], 0⟩
        (fun _ _ => rfl)]
    rfl

/-- C8 witness: a 2-by-3 array against a sink that fails on the second record. -/
theorem serialize_array2_spec_witness :
    serialize_array2 (scriptWrite (fun j => j == 1)) (scriptFlush false)
        (⟨(2, 3), [1, 2, 3, 4, 5, 6]⟩ : Array2 Nat) ⟨[], 0⟩ = Except.error () :=
  (serialize_array2_spec (⟨(2, 3), [1, 2, 3, 4, 5, 6]⟩ : Array2 Nat)
      (fun j => j == 1)).2.1 1 (by decide)
    (fun j hj => by
      have hj0 : j = 0 := by omega
      subst hj0
      rfl)
    rfl false

/-- C9: for every possible source, the dynamic reader never reaches the reshape
with a mismatched length: its result is never a success carrying the panic
marker, so the final unwrap cannot panic. -/
theorem dynamic_unwrap_safe (rows : List (Except ε (List A))) :
    notOkNone (deserialize_array2_dynamic rows) = true := by
  rw [deserialize_array2_dynamic]
  cases hgo : dynGo rows 0 0 none [] with
  | error e => rfl
  | ok t =>
    obtain ⟨rc, c, a⟩ := t
    have hlen := dynGo_ok_length rows 0 0 none [] ⟨rfl, rfl⟩ rc c a hgo
    simp [into_shape, hlen, notOkNone]

/-- C10: with expected column count 0, the fixed-shape read of any source whose
rows all decode to the empty row returns the R-by-0 array no matter how many rows
the source yields; the NRows branch, and with it the division by the zero column
count, is never reached. -/
theorem zero_columns_total (R : Nat) (vals : List (List A))
    (hw : ∀ v ∈ vals, v.length = 0) :
    deserialize_array2 (ε := ε) (R, 0) (vals.map Except.ok) =
      Except.ok ⟨(R, 0), []⟩ := by
  have hcol := collect_rowsToValues_ok (ε := ε) 0 vals hw 0
  have hflat : vals.flatten = [] := by
    have hl := flatten_length_const 0 vals hw
    rw [Nat.mul_zero] at hl
    exact List.length_eq_zero.mp hl
  rw [hflat] at hcol
  simp only [deserialize_array2, hcol, into_shape]
  rw [if_pos (by simp)]

/-- C10 witness: five expected rows, zero columns, three empty rows: the read
succeeds with the 5-by-0 array. -/
theorem zero_columns_total_witness :
    deserialize_array2 (ε := Unit) (5, 0)
        (([[], [], []] : List (List Nat)).map Except.ok) =
      Except.ok ⟨(5, 0), []⟩ :=
  zero_columns_total 5 [[], [], []] (by decide)

end NdarrayCsv
